import Mathlib

/-!
Shallow embedding of the HTTP server in `src/src/HttpServer.cpp` /
`src/include/HttpServer.hpp` (the final, thread-pool variant of the
repository, which the specification declares to be the in-scope one).

Modelling conventions:
* `std::string` is modelled by `String` (the repository only ever handles
  byte strings; all concrete inputs used below are ASCII, where C++ byte
  length and Lean character length agree).
* `std::map<std::string, T>` is modelled by a key-sorted association list
  `List (String × T)`; `insert_or_assign` is `mapInsert` (which keeps the
  list sorted by key, as `std::map` iteration is sorted by key), `find`/`at`
  is `mapLookup`.
* `std::unordered_map` is modelled by an (unsorted) association list with
  `routesUpsert` (`operator[]` + `insert_or_assign`) and `mapLookup`.
* socket reads are modelled by a stream `List (Option Char)`: `some c` is a
  successfully read byte, `none` is a read error (`read` returning `-1`),
  and the end of the list is the peer closing the connection (`read`
  returning `0`).
* C++ exceptions are modelled with `Except`; undefined behaviour (indexing
  past the end of a `std::vector` with `operator[]`) is modelled by
  `Option.none` outcomes.
* the filesystem is an oracle `fs : String → String` mapping a file path to
  that file's bytes (`strutil::slurp` / `std::ifstream` reads).
-/

namespace HttpSrv

/-- Lookup in an association list keyed by strings; models both
`std::map::find`/`at` and `std::unordered_map::find`/`at` (order of the
entries is irrelevant for lookup). -/
def mapLookup {α : Type} : List (String × α) → String → Option α
  | [], _ => none
  | (k', v') :: rest, k => if k = k' then some v' else mapLookup rest k

/-- Lexicographic comparison of character lists by code point, modelling
`std::string::operator<` (byte-wise; the strings handled by the server are
ASCII, where code points and bytes agree). -/
def strLtChars : List Char → List Char → Bool
  | [], [] => false
  | [], _ :: _ => true
  | _ :: _, [] => false
  | a :: as, b :: bs =>
    if a < b then true
    else if b < a then false
    else strLtChars as bs

/-- `std::string::operator<`. -/
def strLt (a b : String) : Bool := strLtChars a.data b.data

/-- Key-sorted insertion, modelling `std::map::insert_or_assign`: the entry
is placed at its ordered position (by `operator<` on `std::string`, i.e.
lexicographic), replacing an existing entry with the same key; `std::map`
iteration order is exactly this sorted order. -/
def mapInsert {α : Type} : List (String × α) → String → α → List (String × α)
  | [], k, v => [(k, v)]
  | (k', v') :: rest, k, v =>
    if strLt k k' then (k, v) :: (k', v') :: rest
    else if k = k' then (k, v) :: rest
    else (k', v') :: mapInsert rest k v

/-! ### String utilities

`strutil.hpp` is part of the repository but is not under `src/`; the
definitions below are modelled from the spec. -/

/-- Modelled from the spec: `strutil::split` (the missing `strutil.hpp`).
Splits at every (non-overlapping, leftmost-first) occurrence of the
delimiter, keeping empty tokens; the spec describes the parser as splitting
on `\r\n`, on single spaces, and on `": "` and then indexing the resulting
token list by position.  Char-list worker: `acc` is the token being
accumulated, and `skip` (0 while scanning) counts the remaining delimiter
characters to pass over after a match, so that the recursion is structural
on `s`. -/
def splitAux (d : List Char) : List Char → List Char → Nat → List (List Char)
  | [], acc, _ => [acc]
  | _ :: rest, acc, Nat.succ k => splitAux d rest acc k
  | c :: rest, acc, 0 =>
    if d.isPrefixOf (c :: rest) ∧ d ≠ [] then
      acc :: splitAux d rest [] (d.length - 1)
    else
      splitAux d rest (acc ++ [c]) 0

/-- Modelled from the spec: `strutil::split` on strings. -/
def split (s delim : String) : List String :=
  (splitAux delim.data s.data [] 0).map List.asString

/-- Modelled from the spec: `strutil::lowers`, ASCII lower-casing of every
character ("key lower-cased"). -/
def lowers (s : String) : String :=
  (s.data.map Char.toLower).asString

/-- The C whitespace class used by `trim`/`stoul` (`isspace` in the C
locale). -/
def isSpaceC (c : Char) : Bool :=
  c == ' ' || c == '\t' || c == '\n' || c == '\x0b' || c == '\x0c' || c == '\r'

/-- Modelled from the spec: `strutil::trim`, removing surrounding
whitespace ("trimmed of surrounding whitespace"). -/
def trim (s : String) : String :=
  (((s.data.dropWhile isSpaceC).reverse.dropWhile isSpaceC).reverse).asString

/-- Char-list model of `std::string::find(pat)` followed by
`std::string(s, 0, n)`: the prefix of `s` strictly before the first
occurrence of `pat`; if there is no occurrence (`find` returns `npos`) the
whole string is taken, matching the clamping `std::string` constructor. -/
def takeUntilSub (pat : List Char) : List Char → List Char
  | [] => []
  | c :: rest => if pat.isPrefixOf (c :: rest) then [] else c :: takeUntilSub pat rest

/-- Whether `pat` occurs as a contiguous substring of `s`. -/
def containsSub (pat : List Char) : List Char → Bool
  | [] => pat.isEmpty
  | s@(_ :: rest) => pat.isPrefixOf s || containsSub pat rest

/-! ### HttpRequest -/

/-- The `HttpRequest` struct: headers (a `std::map`, keys already
lower-cased by the constructor), body, method, and route. -/
structure HttpRequest where
  _headers : List (String × String)
  _body : String
  _method : String
  _route : String
deriving DecidableEq

/-- Reading the request line: `split(status_line, " ")` and taking tokens
0 and 1 (`none` models the out-of-range `std::vector::operator[]` when
they are missing, which is undefined upstream behaviour). -/
def parseRequestLine (status_line : String) : Option (String × String) :=
  match split status_line " " with
  | m :: r :: _ => some (m, r)
  | _ => none

/-- The header loop of the `HttpRequest` constructor: each line is split
on `": "`, tokens 0 and 1 are trimmed, lower-cased and
`insert_or_assign`ed (`none` again models the missing-token undefined
behaviour). -/
def parseHeaderLines : List String → List (String × String) → Option (List (String × String))
  | [], acc => some acc
  | line :: rest, acc =>
    match split line ": " with
    | k :: v :: _ => parseHeaderLines rest (mapInsert acc (lowers (trim k)) (lowers (trim v)))
    | _ => none

/-- The `HttpRequest(std::string raw_headers)` constructor: cut the raw
bytes at the first `\r\n\r\n` (the `header_string` local), split the
header block on `\r\n`, read method and route from the first line, and
fold the remaining lines into the header map. -/
def HttpRequest.parse (raw_headers : String) : Option HttpRequest :=
  match split ((takeUntilSub "\r\n\r\n".data raw_headers.data).asString) "\r\n" with
  | [] => none
  | status_line :: rest =>
    match parseRequestLine status_line with
    | some (m, r) =>
      (parseHeaderLines rest []).map
        (fun hs => { _headers := hs, _body := "", _method := m, _route := r })
    | none => none

/-! ### HttpResponse -/

/-- The `HttpResponse` struct: headers (a `std::map`, keys as provided),
body, and status code (a `uint16_t`, hence a `Nat` kept below `2 ^ 16`). -/
structure HttpResponse where
  _headers : List (String × String)
  _body : String
  _status_code : Nat
deriving DecidableEq

/-- The `HttpResponse()` constructor: status code 200, everything else
empty. -/
def HttpResponse.init : HttpResponse :=
  { _headers := [], _body := "", _status_code := 200 }

/-- `get_status_msg(const uint8_t &status_code)`.  The parameter type is
`uint8_t`, so the `uint16_t` status code stored in the response is
truncated modulo 256 at the call site, and the `std::map<uint8_t, ...>`
initializer keys `{200, 301, 302, 400, 404, 405}` are likewise narrowed
modulo 256 to `{200, 45, 46, 144, 148, 149}`.  Unmatched codes default to
"OK". -/
def get_status_msg (status_code : Nat) : String :=
  let codes : List (Nat × String) :=
    [(200 % 256, "OK"), (301 % 256, "Moved Permanently"),
     (302 % 256, "Found"), (400 % 256, "Bad Request"),
     (404 % 256, "Not Found"), (405 % 256, "Method Not Allowed")]
  match codes.lookup (status_code % 256) with
  | some m => m
  | none => "OK"

/-- `HttpResponse::set_status_code(const int &)`: the `int` argument is
converted to the `uint16_t` field, i.e. reduced modulo `2 ^ 16`. -/
def HttpResponse.set_status_code (res : HttpResponse) (status_code : Int) : HttpResponse :=
  { res with _status_code := (status_code.emod 65536).toNat }

/-- `HttpResponse::set_header`: `insert_or_assign` into the header map. -/
def HttpResponse.set_header (res : HttpResponse) (key value : String) : HttpResponse :=
  { res with _headers := mapInsert res._headers key value }

/-- `HttpResponse::text`: Content-Type `text/plain` plus the body. -/
def HttpResponse.text (res : HttpResponse) (msg : String) : HttpResponse :=
  { res.set_header "Content-Type" "text/plain" with _body := msg }

/-- `HttpResponse::static_file`: body is the slurped file, no header. -/
def HttpResponse.static_file (res : HttpResponse) (fs : String → String) (path : String) :
    HttpResponse :=
  { res with _body := fs path }

/-- `HttpResponse::image(path)`: Content-Type `image/png` plus the file
bytes. -/
def HttpResponse.image (res : HttpResponse) (fs : String → String) (path : String) :
    HttpResponse :=
  { res.set_header "Content-Type" "image/png" with _body := fs path }

/-- `HttpResponse::image(path, type)`: Content-Type `image/<type>` plus
the file bytes. -/
def HttpResponse.image2 (res : HttpResponse) (fs : String → String) (path ty : String) :
    HttpResponse :=
  { res.set_header "Content-Type" ("image/" ++ ty) with _body := fs path }

/-- `HttpResponse::html_string`. -/
def HttpResponse.html_string (res : HttpResponse) (msg : String) : HttpResponse :=
  { res.set_header "Content-Type" "text/html" with _body := msg }

/-- `HttpResponse::html(path)`: Content-Type `text/html`, then
`static_file`. -/
def HttpResponse.html (res : HttpResponse) (fs : String → String) (path : String) :
    HttpResponse :=
  (res.set_header "Content-Type" "text/html").static_file fs path

/-- `HttpResponse::json`. -/
def HttpResponse.json (res : HttpResponse) (json_string : String) : HttpResponse :=
  { res.set_header "Content-Type" "application/json" with _body := json_string }

/-- `HttpResponse::redirect`. -/
def HttpResponse.redirect (res : HttpResponse) (new_location : String) (status_code : Int) :
    HttpResponse :=
  (res.set_status_code status_code).set_header "Location" new_location

/-- Renders the header map in iteration order, one `Key: Value\r\n` line
per entry (the loop body of `get_headers`). -/
def renderHeaderLines : List (String × String) → String
  | [] => ""
  | (k, v) :: rest => k ++ ": " ++ v ++ "\r\n" ++ renderHeaderLines rest

/-- `HttpResponse::get_headers`: status line, header lines in map order,
then — only for a non-empty body — the bare text `Content-Length: <n>`,
then the final `\r\n\r\n` (which also terminates the Content-Length
line). -/
def HttpResponse.get_headers (res : HttpResponse) : String :=
  "HTTP/1.1 " ++ toString res._status_code ++ " " ++ get_status_msg res._status_code ++ "\r\n"
    ++ renderHeaderLines res._headers
    ++ (if res._body = "" then "" else "Content-Length: " ++ toString res._body.length)
    ++ "\r\n\r\n"

/-- `HttpResponse::get_full_response`. -/
def HttpResponse.get_full_response (res : HttpResponse) : String :=
  res.get_headers ++ res._body

/-! ### HttpServer -/

/-- `routeFunc`, the handler type: the C++ handler mutates the supplied
`HttpResponse&`, modelled by state passing. -/
def RouteFunc : Type := HttpRequest → HttpResponse → HttpResponse

/-- The inner `std::map<std::string, routeFunc>` of one HTTP method. -/
def RouteMap : Type := List (String × RouteFunc)

/-- The `HttpServer` fields relevant to the dispatch/configuration logic
(`_listenfd` and the static `_run` flag belong to the socket layer and are
not part of any data the claims quantify over). -/
structure HttpServer where
  _numListeners : Int
  _static_directory_path : String
  _static_directory_mount_point : String
  _notFoundResponse : HttpResponse
  _routes : List (String × RouteMap)

/-- `_routes[method].insert_or_assign(route, f)`: `operator[]` creates the
method's (empty) route map if absent, then `insert_or_assign` stores the
handler. -/
def routesUpsert (rs : List (String × RouteMap)) (meth route : String) (f : RouteFunc) :
    List (String × RouteMap) :=
  match rs with
  | [] => [(meth, mapInsert [] route f)]
  | (k, inner) :: rest =>
    if k = meth then (k, mapInsert inner route f) :: rest
    else (k, inner) :: routesUpsert rest meth route f

/-- The `HttpServer()` constructor: 3 listeners, no static directory, and
the default 404 text response. -/
def HttpServer.init : HttpServer :=
  { _numListeners := 3
    _static_directory_path := ""
    _static_directory_mount_point := ""
    _notFoundResponse :=
      (HttpResponse.init.set_status_code 404).text
        "Wilson\x27s Server: The requested page is not found"
    _routes := [] }

/-- Result of `HttpServer::get`: `threw` models the
`std::invalid_argument` thrown in static-directory mode (the throw happens
before any mutation, so the server state at the throw is the entry
state). -/
structure GetResult where
  threw : Bool
  server : HttpServer

/-- `HttpServer::get`: refuses (throws) when a static directory path is
configured, otherwise registers the GET route. -/
def HttpServer.get (sv : HttpServer) (route : String) (f : RouteFunc) : GetResult :=
  if sv._static_directory_path ≠ "" then { threw := true, server := sv }
  else { threw := false, server := { sv with _routes := routesUpsert sv._routes "GET" route f } }

/-- `HttpServer::_get`, the internal registration that never throws. -/
def HttpServer._get (sv : HttpServer) (route : String) (f : RouteFunc) : HttpServer :=
  { sv with _routes := routesUpsert sv._routes "GET" route f }

/-- `HttpServer::post`. -/
def HttpServer.post (sv : HttpServer) (route : String) (f : RouteFunc) : HttpServer :=
  { sv with _routes := routesUpsert sv._routes "POST" route f }

/-- `HttpServer::del`. -/
def HttpServer.del (sv : HttpServer) (route : String) (f : RouteFunc) : HttpServer :=
  { sv with _routes := routesUpsert sv._routes "DELETE" route f }

/-- `HttpServer::put`. -/
def HttpServer.put (sv : HttpServer) (route : String) (f : RouteFunc) : HttpServer :=
  { sv with _routes := routesUpsert sv._routes "PUT" route f }

/-- `HttpServer::setNumListeners` (returns a modified copy). -/
def HttpServer.setNumListeners (sv : HttpServer) (num_listeners : Int) : HttpServer :=
  { sv with _numListeners := num_listeners }

/-- `HttpServer::set404Page` (returns a modified copy; builds a fresh
response via `html(path)` and forces status 404). -/
def HttpServer.set404Page (sv : HttpServer) (fs : String → String) (path : String) :
    HttpServer :=
  { sv with _notFoundResponse := (HttpResponse.init.html fs path).set_status_code 404 }

/-- `HttpServer::set404Text` (returns a modified copy). -/
def HttpServer.set404Text (sv : HttpServer) (message : String) : HttpServer :=
  { sv with _notFoundResponse := (HttpResponse.init.text message).set_status_code 404 }

/-- `HttpServer::set404Response` (returns a modified copy; forces the
stored copy's status code to 404). -/
def HttpServer.set404Response (sv : HttpServer) (res : HttpResponse) : HttpServer :=
  { sv with _notFoundResponse := res.set_status_code 404 }

/-- `HttpServer::mount_static_directory` (returns a modified copy; appends
a trailing slash to the directory path when absent — `back()` on an empty
path is undefined upstream, so the empty string is left untouched). -/
def HttpServer.mount_static_directory (sv : HttpServer) (directory_path mount_point : String) :
    HttpServer :=
  let p := if directory_path ≠ "" ∧ directory_path.back ≠ '/' then directory_path ++ "/"
           else directory_path
  { sv with _static_directory_path := p, _static_directory_mount_point := mount_point }

/-! ### Static directory setup -/

/-- One entry produced by `std::filesystem::recursive_directory_iterator`:
its full path, its path relative to the static root, its extension
(dot included, as `std::filesystem::path::extension`), and whether it is a
regular file. -/
structure DirEntry where
  path : String
  relPath : String
  extension : String
  isRegularFile : Bool

/-- `std::filesystem::path::operator/` for the non-empty paths used here:
concatenation, inserting a `/` separator if absent. -/
def pathJoin (a b : String) : String :=
  if a ≠ "" ∧ a.back = '/' then a ++ b else a ++ "/" ++ b

/-- The closure registered for the mount point in `staticSetup`: always
serves the root `index.html` via `res.html`. -/
def indexHandler (fs : String → String) (root : String) : RouteFunc :=
  fun _ res => res.html fs (pathJoin root "index.html")

/-- The closure registered per regular file in `staticSetup`: picks the
Content-Type from the extension (the `.ico`/`.svg`/`.png` branches go
through `res.image`, all others through `set_header` + `static_file`),
defaulting to `text/plain`. -/
def staticFileHandler (fs : String → String) (path ext : String) : RouteFunc :=
  fun _ res =>
    if ext = ".css" then (res.set_header "Content-Type" "text/css").static_file fs path
    else if ext = ".js" then (res.set_header "Content-Type" "text/javascript").static_file fs path
    else if ext = ".html" then (res.set_header "Content-Type" "text/html").static_file fs path
    else if ext = ".ico" then res.image2 fs path "x-icon"
    else if ext = ".svg" then res.image2 fs path "svg+xml"
    else if ext = ".txt" then (res.set_header "Content-Type" "text/plain").static_file fs path
    else if ext = ".json" ∨ ext = ".map" then
      (res.set_header "Content-Type" "application/json").static_file fs path
    else if ext = ".png" then res.image fs path
    else (res.set_header "Content-Type" "text/plain").static_file fs path

/-- `HttpServer::staticSetup`.  `rootIsDir` models `is_directory(root)`,
`indexGood` models `std::ifstream(root / "index.html").good()`, and
`entries` is the recursive directory listing; the three
`std::invalid_argument` throws are the `Except.error` outcomes.  The mount
point gets the root `index.html` route, then every regular file is
registered at `"/" + relative_path`. -/
def HttpServer.staticSetup (sv : HttpServer) (fs : String → String)
    (rootIsDir indexGood : Bool) (entries : List DirEntry) : Except Unit HttpServer :=
  if rootIsDir = false then Except.error ()
  else if sv._static_directory_path = "" then Except.error ()
  else if indexGood = false then Except.error ()
  else Except.ok (entries.foldl
    (fun s e =>
      if e.isRegularFile then
        s._get ("/" ++ e.relPath) (staticFileHandler fs e.path e.extension)
      else s)
    (sv._get sv._static_directory_mount_point (indexHandler fs sv._static_directory_path)))

/-- Route lookup: the handler registered for `(method, path)`, if any. -/
def getRoute (sv : HttpServer) (meth path : String) : Option RouteFunc :=
  match mapLookup sv._routes meth with
  | none => none
  | some rt => mapLookup rt path

/-! ### Reading the request from the connection -/

/-- The C++ `std::string::ends_with` check used on the accumulating
request string. -/
def endsWithStr (s suffix : String) : Bool :=
  suffix.data.reverse.isPrefixOf s.data.reverse

/-- The header-reading loop of `handle_connections_free`: read one byte at
a time, appending it to the request string (`append` on the 2-byte C
buffer skips a NUL byte), until the string ends with `\r\n\r\n`.  `none`
is the early `return` when the peer closes (`read` = 0) or a read error
occurs (`read` < 0) before the terminator is complete. -/
def readHeaders (acc : String) : List (Option Char) → Option (String × List (Option Char))
  | [] => none
  | Option.none :: _ => none
  | Option.some c :: rest =>
    let acc2 := if c = '\x00' then acc else acc.push c
    if endsWithStr acc2 "\r\n\r\n" then some (acc2, rest) else readHeaders acc2 rest

/-- Outcome of `std::stoul(s)` (base 10): `invalidArg` when no digits can
be consumed (`std::invalid_argument`), `outOfRange` when the digit string
exceeds `ULONG_MAX` (`std::out_of_range`), else the converted value
(negated modulo `2 ^ 64` after a leading minus sign, as `strtoul`
does). -/
inductive StoulResult where
  | ok : Nat → StoulResult
  | outOfRange : StoulResult
  | invalidArg : StoulResult
deriving DecidableEq

/-- `ULONG_MAX` on the 64-bit targets the server is built for. -/
def ulongMax : Nat := 2 ^ 64 - 1

/-- Digit-consuming phase of `std::stoul`. -/
def stoulDigits (u : List Char) (neg : Bool) : StoulResult :=
  let ds := u.takeWhile Char.isDigit
  if ds = [] then StoulResult.invalidArg
  else
    let m := ds.foldl (fun a c => a * 10 + (c.toNat - 48)) 0
    if ulongMax < m then StoulResult.outOfRange
    else StoulResult.ok (if neg then (2 ^ 64 - m) % 2 ^ 64 else m)

/-- `std::stoul` (base 10): skip C whitespace, accept one optional sign,
then consume digits. -/
def stoulModel (s : String) : StoulResult :=
  match s.data.dropWhile isSpaceC with
  | '-' :: u => stoulDigits u true
  | '+' :: u => stoulDigits u false
  | u => stoulDigits u false

/-- The single `read(connfd, body.data(), n)` after `resize(n)`: the body
is `n` NUL bytes from `resize`, the first `min` of them overwritten with
whatever bytes are available before the stream ends or errors (the return
value of `read` is ignored by the source). -/
def readOnce (stream : List (Option Char)) (n : Nat) : String :=
  let avail := ((stream.takeWhile fun o => o.isSome).filterMap id).take n
  (avail ++ List.replicate (n - avail.length) '\x00').asString

/-- `handle_request_body`: look up `content-length` (`at` throwing
`std::out_of_range` when absent is caught, as is `std::stoul` throwing
`std::out_of_range`), then read that many bytes into the body.  A
`std::invalid_argument` from `stoul` is NOT caught and escapes as
`Except.error`. -/
def handle_request_body (stream : List (Option Char)) (req : HttpRequest) :
    Except Unit HttpRequest :=
  match mapLookup req._headers "content-length" with
  | none => Except.ok req
  | some v =>
    match stoulModel v with
    | StoulResult.invalidArg => Except.error ()
    | StoulResult.outOfRange => Except.ok req
    | StoulResult.ok n => Except.ok { req with _body := readOnce stream n }

/-! ### Dispatch -/

/-- The per-request response created at the top of
`handle_connections_free` / `handle_reply`: default-constructed, then
`set_header("x-powered-by", "Wilson-Server")`. -/
def initialResponse : HttpResponse :=
  HttpResponse.init.set_header "x-powered-by" "Wilson-Server"

/-- The dispatch logic shared by `HttpServer::handle_reply` and
`handle_connections_free`: the written reply bytes, paired with whether
`close(connfd)` is reached (the source only closes after a successful
handler invocation; the 405 and not-found branches `return` without
closing). -/
def dispatch (routes : List (String × RouteMap)) (nf : HttpResponse) (req : HttpRequest) :
    String × Bool :=
  match mapLookup routes req._method with
  | none => ((initialResponse.set_status_code 405).get_full_response, false)
  | some route =>
    match mapLookup route req._route with
    | none => ((nf.set_header "x-powered-by" "Wilson-Server").get_full_response, false)
    | some f => ((f req initialResponse).get_full_response, true)

/-- `HttpServer::handle_reply`: the bytes written for a parsed request. -/
def HttpServer.handle_reply (sv : HttpServer) (request : HttpRequest) : String :=
  (dispatch sv._routes sv._notFoundResponse request).1

/-- Observable outcome of one connection task. -/
inductive ConnOutcome where
  /-- Undefined upstream behaviour in the parser (missing token). -/
  | undef : ConnOutcome
  /-- Early `return`: no bytes written, `close` never reached. -/
  | aborted : ConnOutcome
  /-- An uncaught exception escaped the task: no bytes written, no close. -/
  | fatalExn : ConnOutcome
  /-- Reply bytes written; the Bool records whether `close(connfd)` ran. -/
  | replied : String → Bool → ConnOutcome
deriving DecidableEq

/-- Whether the task closed the connection descriptor. -/
def ConnOutcome.didClose : ConnOutcome → Bool
  | ConnOutcome.replied _ c => c
  | _ => false

/-- The response bytes the task wrote, if any. -/
def ConnOutcome.bytesWritten : ConnOutcome → Option String
  | ConnOutcome.replied b _ => some b
  | _ => none

/-- `handle_connections_free(connfd, _routes, _notFoundResponse)`: read
headers byte-by-byte until `\r\n\r\n` (aborting on EOF/error), parse,
read the body per `content-length`, then dispatch and write; `close` only
happens at the end of the handler branch. -/
def handle_connections_free (input : List (Option Char))
    (routes : List (String × RouteMap)) (nf : HttpResponse) : ConnOutcome :=
  match readHeaders "" input with
  | none => ConnOutcome.aborted
  | some (request_string, rest) =>
    match HttpRequest.parse request_string with
    | none => ConnOutcome.undef
    | some request =>
      match handle_request_body rest request with
      | Except.error _ => ConnOutcome.fatalExn
      | Except.ok request2 =>
        ConnOutcome.replied (dispatch routes nf request2).1 (dispatch routes nf request2).2

/-! ## Generic lemmas about the map model -/

/-- Looking up in a map after `insert_or_assign`: the inserted key maps to
the new value, all other keys are untouched. -/
theorem mapLookup_mapInsert {α : Type} (m : List (String × α)) (a k : String) (v : α) :
    mapLookup (mapInsert m a v) k = if k = a then some v else mapLookup m k := by
  induction m with
  | nil => simp [mapInsert, mapLookup]
  | cons hd tl ih =>
    obtain ⟨b, w⟩ := hd
    by_cases h1 : strLt a b = true
    · by_cases h3 : k = a <;> simp [mapInsert, h1, mapLookup, h3]
    · by_cases h2 : a = b
      · subst h2
        by_cases h3 : k = a <;>
          simp [mapInsert, h1, mapLookup, h3]
      · by_cases h3 : k = b
        · have h4 : k ≠ a := by rintro rfl; exact h2 h3
          have h5 : b ≠ a := fun hh => h2 hh.symm
          simp [mapInsert, h1, h2, mapLookup, h3, h4, h5]
        · simp [mapInsert, h1, h2, mapLookup, h3, ih]

/-- `operator[]` + `insert_or_assign` on the outer method map: the touched
method maps to its updated inner route map. -/
theorem mapLookup_routesUpsert_self (rs : List (String × RouteMap)) (meth route : String)
    (f : RouteFunc) :
    mapLookup (routesUpsert rs meth route f) meth
      = some (mapInsert ((mapLookup rs meth).getD []) route f) := by
  induction rs with
  | nil => simp [routesUpsert, mapLookup]
  | cons hd tl ih =>
    obtain ⟨k, inner⟩ := hd
    by_cases h : k = meth
    · subst h; simp [routesUpsert, mapLookup]
    · have h' : meth ≠ k := fun hh => h hh.symm
      simp [routesUpsert, h, mapLookup, h', ih]

/-- `operator[]` + `insert_or_assign` leaves other methods' route maps
untouched. -/
theorem mapLookup_routesUpsert_ne (rs : List (String × RouteMap)) (meth meth' route : String)
    (f : RouteFunc) (h : meth' ≠ meth) :
    mapLookup (routesUpsert rs meth route f) meth' = mapLookup rs meth' := by
  induction rs with
  | nil => simp [routesUpsert, mapLookup, h]
  | cons hd tl ih =>
    obtain ⟨k, inner⟩ := hd
    by_cases hk : k = meth
    · subst hk
      simp [routesUpsert, mapLookup, h, ih]
    · by_cases hk' : meth' = k <;> simp [routesUpsert, hk, mapLookup, hk', ih]

/-- Effect of one `_get` registration on route lookup. -/
theorem getRoute_underscore_get (sv : HttpServer) (route : String) (f : RouteFunc) (p : String) :
    getRoute (sv._get route f) "GET" p = if p = route then some f else getRoute sv "GET" p := by
  unfold getRoute HttpServer._get
  simp only [mapLookup_routesUpsert_self, mapLookup_mapInsert]
  cases h : mapLookup sv._routes "GET" with
  | none => by_cases hp : p = route <;> simp [hp, mapLookup]
  | some rt => by_cases hp : p = route <;> simp [hp]

/-! ## Shared concrete fixtures -/

/-- A handler answering plain text "hi". -/
def hText : RouteFunc := fun _ res => res.text "hi"

/-- A handler answering an empty JSON array. -/
def hJson : RouteFunc := fun _ res => res.json "[]"

/-- A route table with a single GET route `/h`. -/
def routesGetH : List (String × RouteMap) := [("GET", [("/h", hText)])]

/-- A route table with GET routes `/h` and `/j`. -/
def routes2 : List (String × RouteMap) := [("GET", [("/h", hText), ("/j", hJson)])]

/-- The default not-found response of a freshly constructed server. -/
def nfDefault : HttpResponse := HttpServer.init._notFoundResponse

/-- `GET /h` request. -/
def reqGETh : HttpRequest := { _headers := [], _body := "", _method := "GET", _route := "/h" }

/-- `GET /miss` request. -/
def reqGETmiss : HttpRequest :=
  { _headers := [], _body := "", _method := "GET", _route := "/miss" }

/-- `POST /h` request. -/
def reqPOST : HttpRequest := { _headers := [], _body := "", _method := "POST", _route := "/h" }

/-! ## C7 -/

/-- C7: claimed — the reason phrase is the table entry for 200/301/302/400/
404/405 and "OK" for every other status code.  The table part holds, but
`get_status_msg` takes its argument as `uint8_t`, so the status code is
truncated modulo 256: status code 557 (≡ 301 mod 256), which is outside
the table, yields "Moved Permanently" instead of the claimed "OK" — the
code contradicts its own doc comment ("or else OK by default if the code
is not included in the map"). -/
theorem c7_status_msg_truncated :
    (get_status_msg 200 = "OK" ∧ get_status_msg 301 = "Moved Permanently"
      ∧ get_status_msg 302 = "Found" ∧ get_status_msg 400 = "Bad Request"
      ∧ get_status_msg 404 = "Not Found" ∧ get_status_msg 405 = "Method Not Allowed")
    ∧ get_status_msg 557 = "Moved Permanently" ∧ get_status_msg 557 ≠ "OK" := by
  refine ⟨⟨rfl, rfl, rfl, rfl, rfl, rfl⟩, rfl, ?_⟩
  decide

/-! ## C10 -/

/-- C10: `set404Response` (and `set404Page`, `set404Text`) return a new
server whose not-found response has status code forced to 404 whatever
status `res` carried, keeping the body and headers of `res`, and leaving
every other field of the receiver unchanged (the receiver itself is copied,
never mutated, which the pure embedding renders automatically). -/
theorem c10_set404_forces_404 (sv : HttpServer) (r : HttpResponse)
    (fs : String → String) (path msg : String) :
    ((sv.set404Response r)._notFoundResponse._status_code = 404
      ∧ (sv.set404Response r)._notFoundResponse._headers = r._headers
      ∧ (sv.set404Response r)._notFoundResponse._body = r._body
      ∧ (sv.set404Response r)._routes = sv._routes
      ∧ (sv.set404Response r)._numListeners = sv._numListeners
      ∧ (sv.set404Response r)._static_directory_path = sv._static_directory_path
      ∧ (sv.set404Response r)._static_directory_mount_point
          = sv._static_directory_mount_point)
    ∧ ((sv.set404Page fs path)._notFoundResponse._status_code = 404
      ∧ (sv.set404Page fs path)._routes = sv._routes)
    ∧ ((sv.set404Text msg)._notFoundResponse._status_code = 404
      ∧ (sv.set404Text msg)._routes = sv._routes) := by
  refine ⟨⟨rfl, rfl, rfl, rfl, rfl, rfl, rfl⟩, ⟨rfl, rfl⟩, ⟨rfl, rfl⟩⟩

/-! ## C8 -/

/-- C8: with a static directory configured, the public `get` registration
throws (`threw = true`) with the server unchanged; without one, it
succeeds and the handler is found at the registered route, with the other
configuration fields untouched. -/
theorem c8_get_vs_static_mount (sv : HttpServer) (route : String) (f : RouteFunc) :
    (sv._static_directory_path ≠ "" →
      (sv.get route f).threw = true ∧ (sv.get route f).server = sv)
    ∧ (sv._static_directory_path = "" →
      (sv.get route f).threw = false
      ∧ getRoute (sv.get route f).server "GET" route = some f
      ∧ (sv.get route f).server._notFoundResponse = sv._notFoundResponse
      ∧ (sv.get route f).server._static_directory_path = sv._static_directory_path
      ∧ (sv.get route f).server._static_directory_mount_point
          = sv._static_directory_mount_point
      ∧ (sv.get route f).server._numListeners = sv._numListeners) := by
  constructor
  · intro h
    simp [HttpServer.get, h]
  · intro h
    have hserver : (sv.get route f).server
        = { sv with _routes := routesUpsert sv._routes "GET" route f } := by
      simp [HttpServer.get, h]
    refine ⟨by simp [HttpServer.get, h], ?_, by rw [hserver], by rw [hserver],
      by rw [hserver], by rw [hserver]⟩
    rw [hserver]
    show getRoute ({ sv with _routes := routesUpsert sv._routes "GET" route f }) "GET" route
      = some f
    have : ({ sv with _routes := routesUpsert sv._routes "GET" route f }) = sv._get route f := rfl
    rw [this, getRoute_underscore_get]
    simp

/-- C8 witness: both branches at concrete inputs — a server mounted at
`st` refuses a manual GET route; a fresh server accepts it and serves the
handler at `/x`. -/
theorem c8_get_vs_static_mount_witness :
    ((HttpServer.init.mount_static_directory "st" "/").get "/x" hText).threw = true
    ∧ ((HttpServer.init.mount_static_directory "st" "/").get "/x" hText).server
        = HttpServer.init.mount_static_directory "st" "/"
    ∧ (HttpServer.init.get "/x" hText).threw = false
    ∧ getRoute (HttpServer.init.get "/x" hText).server "GET" "/x" = some hText := by
  refine ⟨?_, ?_, ?_, ?_⟩
  · exact ((c8_get_vs_static_mount (HttpServer.init.mount_static_directory "st" "/")
      "/x" hText).1 (by decide)).1
  · exact ((c8_get_vs_static_mount (HttpServer.init.mount_static_directory "st" "/")
      "/x" hText).1 (by decide)).2
  · exact ((c8_get_vs_static_mount HttpServer.init "/x" hText).2 rfl).1
  · exact ((c8_get_vs_static_mount HttpServer.init "/x" hText).2 rfl).2.1

/-! ## C2 -/

/-- A request carrying a non-numeric `content-length`. -/
def reqBadCL : HttpRequest :=
  { _headers := [("content-length", "abc")], _body := "", _method := "GET", _route := "/" }

/-- A request carrying an out-of-range `content-length`. -/
def reqHugeCL : HttpRequest :=
  { _headers := [("content-length", "99999999999999999999999999")], _body := "",
    _method := "GET", _route := "/" }

/-- C2 counterexample: for the request whose `content-length` is `abc`
(present but not parsing as a non-negative integer), `handle_request_body`
does not recover silently — `std::stoul` throws `std::invalid_argument`,
which the `catch (std::out_of_range const &)` does not catch, so the
exception escapes (modelled as `Except.error`), contradicting "a malformed
content-length value never raises a fatal error". -/
theorem c2_counterexample :
    mapLookup reqBadCL._headers "content-length" = some "abc"
    ∧ stoulModel "abc" = StoulResult.invalidArg
    ∧ handle_request_body [] reqBadCL = Except.error ()
    ∧ ∀ req : HttpRequest, handle_request_body [] reqBadCL ≠ Except.ok req := by
  refine ⟨rfl, rfl, rfl, fun req h => ?_⟩
  rw [show handle_request_body [] reqBadCL = Except.error () from rfl] at h
  exact Except.noConfusion h

/-- C2 amended: a missing `content-length`, or one whose numeric value
overflows `unsigned long`, is recovered silently (the request, and hence
its — in the pipeline empty — body, is returned unchanged); but a value
with no leading digits makes `std::stoul` throw `std::invalid_argument`,
which is not caught and escapes the task. -/
theorem c2_content_length_handling (stream : List (Option Char)) (req : HttpRequest) :
    (mapLookup req._headers "content-length" = none →
      handle_request_body stream req = Except.ok req)
    ∧ (∀ v, mapLookup req._headers "content-length" = some v →
      stoulModel v = StoulResult.outOfRange →
      handle_request_body stream req = Except.ok req)
    ∧ (∀ v, mapLookup req._headers "content-length" = some v →
      stoulModel v = StoulResult.invalidArg →
      handle_request_body stream req = Except.error ()) := by
  refine ⟨fun h => ?_, fun v h1 h2 => ?_, fun v h1 h2 => ?_⟩
  · simp [handle_request_body, h]
  · simp [handle_request_body, h1, h2]
  · simp [handle_request_body, h1, h2]

/-- C2 witness: the amended theorem applied to concrete requests — no
`content-length` header; a `content-length` of 26 nines (out of range);
and the non-numeric value `nan`. -/
theorem c2_content_length_handling_witness :
    handle_request_body [] reqGETh = Except.ok reqGETh
    ∧ handle_request_body [] reqHugeCL = Except.ok reqHugeCL
    ∧ handle_request_body []
        { _headers := [("content-length", "nan")], _body := "", _method := "GET", _route := "/" }
      = Except.error () := by
  refine ⟨(c2_content_length_handling [] reqGETh).1 rfl,
    (c2_content_length_handling [] reqHugeCL).2.1 "99999999999999999999999999" rfl (by decide),
    (c2_content_length_handling []
      { _headers := [("content-length", "nan")], _body := "", _method := "GET", _route := "/" }
      ).2.2 "nan" rfl (by decide)⟩

/-! ## C9 -/

/-- C9 counterexample: the peer sends only `G` and closes.  The task
aborts without writing any bytes — but, contrary to the claim, it does
NOT close the connection descriptor: `close(connfd)` is only reached at
the end of the successful-handler path, and the early `return`s skip
it. -/
theorem c9_counterexample :
    handle_connections_free [some 'G'] routesGetH nfDefault = ConnOutcome.aborted
    ∧ (handle_connections_free [some 'G'] routesGetH nfDefault).bytesWritten = none
    ∧ (handle_connections_free [some 'G'] routesGetH nfDefault).didClose ≠ true := by
  refine ⟨rfl, rfl, fun h => by simp [handle_connections_free, readHeaders,
    endsWithStr, ConnOutcome.didClose] at h⟩

/-- C9 amended: whenever the header-reading loop ends (peer EOF or read
error) before a complete `\r\n\r\n` terminator, the task aborts: no
response bytes are written — but the connection descriptor is NOT closed
by the task. -/
theorem c9_abort_without_reply (input : List (Option Char))
    (routes : List (String × RouteMap)) (nf : HttpResponse)
    (h : readHeaders "" input = none) :
    handle_connections_free input routes nf = ConnOutcome.aborted
    ∧ (handle_connections_free input routes nf).bytesWritten = none
    ∧ (handle_connections_free input routes nf).didClose = false := by
  refine ⟨?_, ?_, ?_⟩ <;> simp [handle_connections_free, h, ConnOutcome.bytesWritten,
    ConnOutcome.didClose]

/-- C9 witness: the amended theorem applied to a connection that errors
out (`read` returning -1) right after the bytes `GE`. -/
theorem c9_abort_without_reply_witness :
    handle_connections_free [some 'G', some 'E', none] routesGetH nfDefault
      = ConnOutcome.aborted
    ∧ (handle_connections_free [some 'G', some 'E', none] routesGetH nfDefault).bytesWritten
      = none := by
  refine ⟨(c9_abort_without_reply [some 'G', some 'E', none] routesGetH nfDefault
      (by decide)).1,
    (c9_abort_without_reply [some 'G', some 'E', none] routesGetH nfDefault (by decide)).2.1⟩

/-! ## C1 -/

/-- C1 counterexample: dispatching `GET /miss` against a table that has a
GET group but no `/miss` route.  The claim says the server writes the
configured Not-Found Response; in fact the source first upserts the header
`x-powered-by: Wilson-Server` into its copy of that response, so the bytes
written differ from the configured response's serialization whenever it
does not already carry that header. -/
theorem c1_counterexample :
    (mapLookup routesGetH reqGETmiss._method).isSome = true
    ∧ mapLookup [("/h", hText)] reqGETmiss._route = none
    ∧ (dispatch routesGetH nfDefault reqGETmiss).1 ≠ nfDefault.get_full_response := by
  refine ⟨rfl, rfl, ?_⟩
  decide

/-- C1 amended: dispatch follows the three-step algorithm, with the proviso
that a per-request response pre-seeded with `x-powered-by: Wilson-Server`
is used: (1) unregistered method → the fixed 405 reply bytes (status line
`HTTP/1.1 405 Method Not Allowed` plus the pre-seeded header, empty body);
(2) method registered but exact path absent → the serialization of the
configured Not-Found Response with `x-powered-by: Wilson-Server` upserted;
(3) both registered → the serialization of the Response produced by the
handler run on the pre-seeded response.  Only case (3) reaches `close`. -/
theorem c1_dispatch_three_step (routes : List (String × RouteMap)) (nf : HttpResponse)
    (req : HttpRequest) :
    (mapLookup routes req._method = none →
      dispatch routes nf req
        = ("HTTP/1.1 405 Method Not Allowed\r\nx-powered-by: Wilson-Server\r\n\r\n\r\n", false))
    ∧ (∀ rt, mapLookup routes req._method = some rt →
      mapLookup rt req._route = none →
      dispatch routes nf req
        = ((nf.set_header "x-powered-by" "Wilson-Server").get_full_response, false))
    ∧ (∀ rt f, mapLookup routes req._method = some rt →
      mapLookup rt req._route = some f →
      dispatch routes nf req = ((f req initialResponse).get_full_response, true)) := by
  refine ⟨fun h => ?_, fun rt h1 h2 => ?_, fun rt f h1 h2 => ?_⟩
  · simp only [dispatch, h]
    rfl
  · simp [dispatch, h1, h2]
  · simp [dispatch, h1, h2]

/-- C1 witness: the amended theorem applied, for each of the three
branches, to a concrete route table (only `GET /h` registered) and the
requests `POST /h`, `GET /miss` and `GET /h`. -/
theorem c1_dispatch_three_step_witness :
    dispatch routesGetH nfDefault reqPOST
      = ("HTTP/1.1 405 Method Not Allowed\r\nx-powered-by: Wilson-Server\r\n\r\n\r\n", false)
    ∧ dispatch routesGetH nfDefault reqGETmiss
      = ((nfDefault.set_header "x-powered-by" "Wilson-Server").get_full_response, false)
    ∧ dispatch routesGetH nfDefault reqGETh
      = ((hText reqGETh initialResponse).get_full_response, true) := by
  refine ⟨(c1_dispatch_three_step routesGetH nfDefault reqPOST).1 rfl,
    (c1_dispatch_three_step routesGetH nfDefault reqGETmiss).2.1 [("/h", hText)] rfl rfl,
    (c1_dispatch_three_step routesGetH nfDefault reqGETh).2.2 [("/h", hText)] hText rfl rfl⟩

/-! ## C6 -/

/-- C6 counterexample: `GET /h` is registered with a handler that only
sets a `text/plain` body `hi`.  The wire bytes are not the serialization
of the handler's Response run on a fresh (default-constructed) Response:
they additionally contain the header `x-powered-by: Wilson-Server`, which
the dispatcher pre-seeds into the Response before invoking the handler. -/
theorem c6_counterexample :
    mapLookup routesGetH "GET" = some [("/h", hText)]
    ∧ (dispatch routesGetH nfDefault reqGETh).1
        ≠ (hText reqGETh HttpResponse.init).get_full_response
    ∧ (dispatch routesGetH nfDefault reqGETh).1
        = "HTTP/1.1 200 OK\r\nContent-Type: text/plain\r\nx-powered-by: Wilson-Server\r\nContent-Length: 2\r\n\r\nhi" := by
  refine ⟨rfl, ?_, rfl⟩
  decide

/-- C6 amended: for every registered `(method, path, handler)` triple,
issuing a request with exactly that method and path yields the
serialization of the Response obtained by running the handler on the
per-request Response pre-seeded with `x-powered-by: Wilson-Server` (so the
wire response carries exactly the headers of that run — the handler's own
headers plus the pre-seeded one unless overwritten), and the descriptor is
closed afterwards. -/
theorem c6_registered_route_reply (routes : List (String × RouteMap)) (nf : HttpResponse)
    (m p : String) (rt : RouteMap) (f : RouteFunc) (req : HttpRequest)
    (h1 : mapLookup routes m = some rt) (h2 : mapLookup rt p = some f)
    (hm : req._method = m) (hp : req._route = p) :
    dispatch routes nf req = ((f req initialResponse).get_full_response, true) := by
  subst hm hp
  simp [dispatch, h1, h2]

/-- C6 witness: the amended theorem applied to the table registering
`GET /j` with the JSON handler and the matching request. -/
theorem c6_registered_route_reply_witness :
    dispatch routes2 nfDefault { _headers := [], _body := "", _method := "GET", _route := "/j" }
      = ((hJson { _headers := [], _body := "", _method := "GET", _route := "/j" }
          initialResponse).get_full_response, true) := by
  exact c6_registered_route_reply routes2 nfDefault "GET" "/j" [("/h", hText), ("/j", hJson)]
    hJson _ rfl rfl rfl rfl

/-! ## Order lemmas for the sorted map -/

/-- Unfolding `strLtChars` on two cons cells as the usual lexicographic
disjunction. -/
theorem strLtChars_cons_iff (a b : Char) (as bs : List Char) :
    strLtChars (a :: as) (b :: bs) = true ↔ a < b ∨ (a = b ∧ strLtChars as bs = true) := by
  rcases lt_trichotomy a b with h | h | h
  · simp [strLtChars, h]
  · subst h
    simp [strLtChars, lt_irrefl]
  · simp [strLtChars, lt_asymm h, h, h.ne']

/-- `strLtChars` is transitive. -/
theorem strLtChars_trans : ∀ (a b c : List Char), strLtChars a b = true →
    strLtChars b c = true → strLtChars a c = true
  | [], b, c, h1, h2 => by
    cases b with
    | nil => simp [strLtChars] at h1
    | cons bh bt =>
      cases c with
      | nil => simp [strLtChars] at h2
      | cons ch ct => simp [strLtChars]
  | _ :: _, [], _, h1, _ => by simp [strLtChars] at h1
  | _ :: _, _ :: _, [], _, h2 => by simp [strLtChars] at h2
  | a :: as, b :: bs, c :: cs, h1, h2 => by
    rcases (strLtChars_cons_iff a b as bs).1 h1 with hab | ⟨hab, h1'⟩ <;>
      rcases (strLtChars_cons_iff b c bs cs).1 h2 with hbc | ⟨hbc, h2'⟩
    · exact (strLtChars_cons_iff a c as cs).2 (Or.inl (lt_trans hab hbc))
    · exact (strLtChars_cons_iff a c as cs).2 (Or.inl (hbc ▸ hab))
    · exact (strLtChars_cons_iff a c as cs).2 (Or.inl (hab ▸ hbc))
    · exact (strLtChars_cons_iff a c as cs).2
        (Or.inr ⟨hab.trans hbc, strLtChars_trans as bs cs h1' h2'⟩)

/-- `strLtChars` is trichotomous. -/
theorem strLtChars_total : ∀ (a b : List Char),
    strLtChars a b = true ∨ a = b ∨ strLtChars b a = true
  | [], [] => Or.inr (Or.inl rfl)
  | [], _ :: _ => Or.inl (by simp [strLtChars])
  | _ :: _, [] => Or.inr (Or.inr (by simp [strLtChars]))
  | a :: as, b :: bs => by
    rcases lt_trichotomy a b with h | h | h
    · exact Or.inl ((strLtChars_cons_iff a b as bs).2 (Or.inl h))
    · subst h
      rcases strLtChars_total as bs with h' | h' | h'
      · exact Or.inl ((strLtChars_cons_iff a a as bs).2 (Or.inr ⟨rfl, h'⟩))
      · exact Or.inr (Or.inl (by rw [h']))
      · exact Or.inr (Or.inr ((strLtChars_cons_iff a a bs as).2 (Or.inr ⟨rfl, h'⟩)))
    · exact Or.inr (Or.inr ((strLtChars_cons_iff b a bs as).2 (Or.inl h)))

/-- Strings with equal character data are equal. -/
theorem stringDataEq {s t : String} (h : s.data = t.data) : s = t := by
  cases s; cases t
  exact congrArg String.mk (by simpa using h)

/-- `strLt` is transitive. -/
theorem strLt_trans {s t u : String} (h1 : strLt s t = true) (h2 : strLt t u = true) :
    strLt s u = true :=
  strLtChars_trans s.data t.data u.data h1 h2

/-- `strLt` is trichotomous. -/
theorem strLt_total (s t : String) : strLt s t = true ∨ s = t ∨ strLt t s = true := by
  rcases strLtChars_total s.data t.data with h | h | h
  · exact Or.inl h
  · exact Or.inr (Or.inl (stringDataEq h))
  · exact Or.inr (Or.inr h)

/-- Members of `mapInsert m k v` are the new entry or members of `m`. -/
theorem mem_mapInsert {α : Type} (m : List (String × α)) (k : String) (v : α)
    (e : String × α) (he : e ∈ mapInsert m k v) : e = (k, v) ∨ e ∈ m := by
  induction m with
  | nil =>
    simp only [mapInsert] at he
    exact Or.inl (List.mem_singleton.1 he)
  | cons hd tl ih =>
    obtain ⟨b, w⟩ := hd
    by_cases h1 : strLt k b = true
    · rw [show mapInsert ((b, w) :: tl) k v = (k, v) :: (b, w) :: tl by
        simp [mapInsert, h1]] at he
      rcases List.mem_cons.1 he with he | he
      · exact Or.inl he
      · exact Or.inr he
    · have h1' : strLt k b = false := by revert h1; cases strLt k b <;> simp
      by_cases h2 : k = b
      · subst h2
        rw [show mapInsert ((k, w) :: tl) k v = (k, v) :: tl by
          simp [mapInsert, h1']] at he
        rcases List.mem_cons.1 he with he | he
        · exact Or.inl he
        · exact Or.inr (List.mem_cons_of_mem _ he)
      · rw [show mapInsert ((b, w) :: tl) k v = (b, w) :: mapInsert tl k v by
          simp [mapInsert, h1', h2]] at he
        rcases List.mem_cons.1 he with he | he
        · exact Or.inr (by rw [he]; exact List.mem_cons_self _ _)
        · rcases ih he with h | h
          · exact Or.inl h
          · exact Or.inr (List.mem_cons_of_mem _ h)

/-- `insert_or_assign` keeps the map strictly sorted by key (the `std::map`
invariant, hence also its iteration order). -/
theorem pairwise_mapInsert {α : Type} (m : List (String × α)) (k : String) (v : α)
    (h : List.Pairwise (fun x y => strLt x.1 y.1 = true) m) :
    List.Pairwise (fun x y => strLt x.1 y.1 = true) (mapInsert m k v) := by
  induction m with
  | nil => simp [mapInsert]
  | cons hd tl ih =>
    obtain ⟨b, w⟩ := hd
    rw [List.pairwise_cons] at h
    obtain ⟨hhd, htl⟩ := h
    by_cases h1 : strLt k b = true
    · rw [show mapInsert ((b, w) :: tl) k v = (k, v) :: (b, w) :: tl by
        simp [mapInsert, h1]]
      refine List.Pairwise.cons ?_ (List.Pairwise.cons (fun e he => hhd e he) htl)
      intro e he
      rcases List.mem_cons.1 he with he | he
      · rw [he]; exact h1
      · exact strLt_trans h1 (hhd e he)
    · have h1' : strLt k b = false := by revert h1; cases strLt k b <;> simp
      by_cases h2 : k = b
      · subst h2
        rw [show mapInsert ((k, w) :: tl) k v = (k, v) :: tl by
          simp [mapInsert, h1']]
        exact List.Pairwise.cons (fun e he => hhd e he) htl
      · rw [show mapInsert ((b, w) :: tl) k v = (b, w) :: mapInsert tl k v by
          simp [mapInsert, h1', h2]]
        refine List.Pairwise.cons ?_ (ih htl)
        intro e he
        rcases mem_mapInsert tl k v e he with he' | he'
        · rw [he']
          rcases strLt_total k b with h3 | h3 | h3
          · exact absurd h3 h1
          · exact absurd h3 h2
          · exact h3
        · exact hhd e he'

/-- A fold of `insert_or_assign`s keeps the map strictly sorted. -/
theorem pairwise_foldl_mapInsert {α : Type} :
    ∀ (ops : List (String × α)) (init : List (String × α)),
      List.Pairwise (fun x y => strLt x.1 y.1 = true) init →
      List.Pairwise (fun x y => strLt x.1 y.1 = true)
        (ops.foldl (fun m kv => mapInsert m kv.1 kv.2) init)
  | [], _, h => h
  | u :: t, init, h =>
    pairwise_foldl_mapInsert t (mapInsert init u.1 u.2) (pairwise_mapInsert init u.1 u.2 h)

/-! ## Last-write-wins characterization of the header map -/

/-- The claim-side "last write wins" view of a sequence of header
insertions: the value of the last pair written for a key. -/
def lastWrite {α : Type} (ops : List (String × α)) (k : String) : Option α :=
  ops.foldl (fun acc kv => if kv.1 = k then some kv.2 else acc) none

/-- Folding the last-write accumulator from an arbitrary start. -/
theorem lastWrite_gen {α : Type} (k : String) :
    ∀ (t : List (String × α)) (a : Option α),
      t.foldl (fun acc kv => if kv.1 = k then some kv.2 else acc) a
        = (lastWrite t k).or a
  | [], a => by simp [lastWrite]
  | u :: t, a => by
    rw [List.foldl_cons, lastWrite_gen k t, show lastWrite (u :: t) k
      = (lastWrite t k).or (if u.1 = k then some u.2 else none) from lastWrite_gen k t _,
      Option.or_assoc]
    congr 1
    by_cases h : u.1 = k <;> simp [h]

/-- Looking up after a fold of `insert_or_assign`s: the last write wins,
falling back to the initial map. -/
theorem mapLookup_foldl_mapInsert {α : Type} (k : String) :
    ∀ (ops : List (String × α)) (init : List (String × α)),
      mapLookup (ops.foldl (fun m kv => mapInsert m kv.1 kv.2) init) k
        = (lastWrite ops k).or (mapLookup init k)
  | [], init => by simp [lastWrite]
  | u :: t, init => by
    rw [List.foldl_cons, mapLookup_foldl_mapInsert k t, show lastWrite (u :: t) k
      = (lastWrite t k).or (if u.1 = k then some u.2 else none) from lastWrite_gen k t _,
      Option.or_assoc, mapLookup_mapInsert]
    congr 1
    by_cases h : u.1 = k
    · simp [h]
    · have h' : k ≠ u.1 := fun hh => h hh.symm
      simp [h, h']

/-- A fold of `set_header`s only touches the header map, via a fold of
`insert_or_assign`s. -/
theorem foldl_set_header_fields (ops : List (String × String)) :
    ∀ (init : HttpResponse),
      ((ops.foldl (fun (r : HttpResponse) kv => r.set_header kv.1 kv.2) init)._body
          = init._body
      ∧ (ops.foldl (fun (r : HttpResponse) kv => r.set_header kv.1 kv.2) init)._status_code
          = init._status_code
      ∧ (ops.foldl (fun (r : HttpResponse) kv => r.set_header kv.1 kv.2) init)._headers
          = ops.foldl (fun m kv => mapInsert m kv.1 kv.2) init._headers) := by
  induction ops with
  | nil => intro init; exact ⟨rfl, rfl, rfl⟩
  | cons u t ih =>
    intro init
    simpa [HttpResponse.set_header] using ih (init.set_header u.1 u.2)

/-! ## C3 -/

/-- The serialization exactly as the claim words it: status line, then the
headers in the order they were inserted (each `Key: Value\r\n`), then the
Content-Length header iff the body is non-empty, then the final separator,
then the body. -/
def claimInsertionOrderSerialization (ops : List (String × String)) (body : String)
    (code : Nat) : String :=
  "HTTP/1.1 " ++ toString code ++ " " ++ get_status_msg code ++ "\r\n"
    ++ renderHeaderLines ops
    ++ (if body = "" then "" else "Content-Length: " ++ toString body.length)
    ++ "\r\n\r\n" ++ body

/-- The response built by inserting header `b` then header `a` into a
response with body `x`. -/
def respBA : HttpResponse :=
  [("b", "2"), ("a", "1")].foldl (fun (r : HttpResponse) kv => r.set_header kv.1 kv.2)
    { _headers := [], _body := "x", _status_code := 200 }

/-- C3 counterexample: headers are NOT serialized in insertion order.
Inserting `b` then `a`, the wire bytes list `a: 1` before `b: 2`, because
`_headers` is a `std::map` iterated in ascending key order; the
serialization in the claimed insertion order differs. -/
theorem c3_counterexample :
    respBA.get_full_response
      ≠ claimInsertionOrderSerialization [("b", "2"), ("a", "1")] "x" 200
    ∧ respBA.get_full_response
      = "HTTP/1.1 200 OK\r\na: 1\r\nb: 2\r\nContent-Length: 1\r\n\r\nx"
    ∧ claimInsertionOrderSerialization [("b", "2"), ("a", "1")] "x" 200
      = "HTTP/1.1 200 OK\r\nb: 2\r\na: 1\r\nContent-Length: 1\r\n\r\nx" := by
  refine ⟨by decide, rfl, rfl⟩

/-- C3 amended: for a response with a given body and status code whose
headers were produced by any sequence of insertions, serialization is
exactly: status line `HTTP/1.1 <code> <reason>`, then the stored headers
in ascending lexicographic key order (the `std::map` iteration order, NOT
insertion order), each as `Key: Value\r\n`, then — iff the body is
non-empty — the bare text `Content-Length: <length>`, then the 4-byte
separator `\r\n\r\n`, then the raw body bytes.  The stored header map is
strictly sorted by key and holds, for every key, the last value written
for it. -/
theorem c3_serialization_sorted (ops : List (String × String)) (body : String) (code : Nat) :
    ((ops.foldl (fun (r : HttpResponse) kv => r.set_header kv.1 kv.2)
        { _headers := [], _body := body, _status_code := code }).get_full_response
      = "HTTP/1.1 " ++ toString code ++ " " ++ get_status_msg code ++ "\r\n"
        ++ renderHeaderLines
            (ops.foldl (fun m kv => mapInsert m kv.1 kv.2) ([] : List (String × String)))
        ++ (if body = "" then "" else "Content-Length: " ++ toString body.length)
        ++ "\r\n\r\n" ++ body)
    ∧ List.Pairwise (fun x y => strLt x.1 y.1 = true)
        (ops.foldl (fun m kv => mapInsert m kv.1 kv.2) ([] : List (String × String)))
    ∧ (∀ k, mapLookup (ops.foldl (fun m kv => mapInsert m kv.1 kv.2)
        ([] : List (String × String))) k = lastWrite ops k) := by
  obtain ⟨hb, hc, hh⟩ := foldl_set_header_fields ops
    { _headers := [], _body := body, _status_code := code }
  refine ⟨?_, ?_, ?_⟩
  · unfold HttpResponse.get_full_response HttpResponse.get_headers
    rw [hb, hc, hh]
  · exact pairwise_foldl_mapInsert ops [] List.Pairwise.nil
  · intro k
    rw [mapLookup_foldl_mapInsert, mapLookup]
    exact Option.or_none

/-! ## C5 -/

/-- The extension→MIME table exactly as the claim/spec words it
(`.css`→text/css, `.js`→text/javascript, `.html`→text/html,
`.json`/`.map`→application/json, `.txt`→text/plain, `.png`→image/png,
`.ico`→image/x-icon, `.svg`→image/svg+xml; unknown → text/plain). -/
def specMimeOf (ext : String) : String :=
  if ext = ".css" then "text/css"
  else if ext = ".js" then "text/javascript"
  else if ext = ".html" then "text/html"
  else if ext = ".json" ∨ ext = ".map" then "application/json"
  else if ext = ".txt" then "text/plain"
  else if ext = ".png" then "image/png"
  else if ext = ".ico" then "image/x-icon"
  else if ext = ".svg" then "image/svg+xml"
  else "text/plain"

/-- Routes not touched by the static-registration loop keep their
lookup result. -/
theorem getRoute_staticFold_preserve (fs : String → String) :
    ∀ (entries : List DirEntry) (sv : HttpServer) (p : String),
      (∀ e ∈ entries, e.isRegularFile = true → "/" ++ e.relPath ≠ p) →
      getRoute (entries.foldl
          (fun s e =>
            if e.isRegularFile then
              s._get ("/" ++ e.relPath) (staticFileHandler fs e.path e.extension)
            else s) sv) "GET" p
        = getRoute sv "GET" p
  | [], _, _, _ => rfl
  | e0 :: t, sv, p, h => by
    rw [List.foldl_cons,
      getRoute_staticFold_preserve fs t _ p (fun e he => h e (List.mem_cons_of_mem _ he))]
    by_cases hr : e0.isRegularFile = true
    · rw [if_pos hr, getRoute_underscore_get,
        if_neg (fun hh => h e0 (List.mem_cons_self _ _) hr hh.symm)]
    · rw [if_neg hr]

/-- Each regular file in the walked listing ends up registered at
`"/" ++ relative_path` with its static-file handler (assuming the
registered routes are pairwise distinct). -/
theorem getRoute_staticFold_mem (fs : String → String) :
    ∀ (entries : List DirEntry) (sv : HttpServer) (e : DirEntry),
      e ∈ entries → e.isRegularFile = true →
      ((entries.filter fun x => x.isRegularFile).map fun x => "/" ++ x.relPath).Nodup →
      getRoute (entries.foldl
          (fun s e2 =>
            if e2.isRegularFile then
              s._get ("/" ++ e2.relPath) (staticFileHandler fs e2.path e2.extension)
            else s) sv) "GET" ("/" ++ e.relPath)
        = some (staticFileHandler fs e.path e.extension)
  | [], _, e, he, _, _ => absurd he (List.not_mem_nil e)
  | e0 :: t, sv, e, he, hreg, hn => by
    rw [List.foldl_cons]
    rcases List.mem_cons.1 he with he0 | het
    · subst he0
      rw [List.filter_cons_of_pos hreg] at hn
      simp only [List.map_cons] at hn
      have hn1 := (List.nodup_cons.1 hn).1
      have hpres : ∀ x ∈ t, x.isRegularFile = true → "/" ++ x.relPath ≠ "/" ++ e.relPath := by
        intro x hx hxr heq
        exact hn1 (heq ▸ List.mem_map.2 ⟨x, List.mem_filter.2 ⟨hx, hxr⟩, rfl⟩)
      rw [if_pos hreg, getRoute_staticFold_preserve fs t _ _ hpres,
        getRoute_underscore_get, if_pos rfl]
    · have hnt : ((t.filter fun x => x.isRegularFile).map fun x => "/" ++ x.relPath).Nodup := by
        by_cases h0 : e0.isRegularFile = true
        · rw [List.filter_cons_of_pos h0] at hn
          simp only [List.map_cons] at hn
          exact (List.nodup_cons.1 hn).2
        · rwa [List.filter_cons_of_neg (by simpa using h0)] at hn
      exact getRoute_staticFold_mem fs t _ e het hreg hnt

/-- C5 amended: after a successful `staticSetup` (directory valid,
`index.html` present) with pairwise-distinct file routes none of which
collides with the mount point: (1) the mount point serves the root
`index.html` handler (Content-Type `text/html`, body the root
`index.html` bytes); (2) every regular file is registered at
`"/" ++ relative_path` — NOT at `mount_prefix ++ relative_path` — and (3)
its handler serves the file's bytes with the Content-Type given by the
extension→MIME table (unknown extensions defaulting to `text/plain`). -/
theorem c5_static_routes (fs : String → String) (sv : HttpServer) (entries : List DirEntry)
    (sv' : HttpServer)
    (hpath : sv._static_directory_path ≠ "")
    (hok : sv.staticSetup fs true true entries = Except.ok sv')
    (hnodup : ((entries.filter fun e => e.isRegularFile).map fun e => "/" ++ e.relPath).Nodup)
    (hmp : ∀ e ∈ entries, e.isRegularFile = true →
      "/" ++ e.relPath ≠ sv._static_directory_mount_point) :
    getRoute sv' "GET" sv._static_directory_mount_point
        = some (indexHandler fs sv._static_directory_path)
    ∧ (∀ e ∈ entries, e.isRegularFile = true →
        getRoute sv' "GET" ("/" ++ e.relPath)
          = some (staticFileHandler fs e.path e.extension))
    ∧ (∀ path ext req res,
        mapLookup (staticFileHandler fs path ext req res)._headers "Content-Type"
            = some (specMimeOf ext)
          ∧ (staticFileHandler fs path ext req res)._body = fs path)
    ∧ (∀ req res,
        mapLookup (indexHandler fs sv._static_directory_path req res)._headers "Content-Type"
            = some "text/html"
          ∧ (indexHandler fs sv._static_directory_path req res)._body
            = fs (pathJoin sv._static_directory_path "index.html")) := by
  have hsv' : sv' = entries.foldl
      (fun s e =>
        if e.isRegularFile then
          s._get ("/" ++ e.relPath) (staticFileHandler fs e.path e.extension)
        else s)
      (sv._get sv._static_directory_mount_point (indexHandler fs sv._static_directory_path)) := by
    unfold HttpServer.staticSetup at hok
    rw [if_neg (by simp), if_neg hpath, if_neg (by simp)] at hok
    exact (Except.ok.inj hok).symm
  refine ⟨?_, ?_, ?_, ?_⟩
  · rw [hsv', getRoute_staticFold_preserve fs entries _ _ hmp, getRoute_underscore_get,
      if_pos rfl]
  · intro e he hreg
    rw [hsv']
    exact getRoute_staticFold_mem fs entries _ e he hreg hnodup
  · intro path ext req res
    unfold staticFileHandler specMimeOf
    split_ifs with h1 h2 h3 h4 h5 h6 h7 h8 <;>
      simp_all [HttpResponse.static_file, HttpResponse.set_header, HttpResponse.image,
        HttpResponse.image2, mapLookup_mapInsert]
  · intro req res
    unfold indexHandler HttpResponse.html HttpResponse.static_file
    constructor
    · simp [HttpResponse.set_header, mapLookup_mapInsert]
    · rfl

/-- Filesystem oracle used by the concrete static-mount fixtures. -/
def fsConst : String → String := fun _ => "BODY"

/-- A single regular `.css` file under the static root `st`. -/
def entStyle : DirEntry :=
  { path := "st/style.css", relPath := "style.css", extension := ".css", isRegularFile := true }

/-- A server with the static directory `st` mounted at `/app`. -/
def svApp : HttpServer := HttpServer.init.mount_static_directory "st" "/app"

/-- The server state after `staticSetup` on `svApp` with the single-file
listing. -/
def svAppStatic : HttpServer :=
  match svApp.staticSetup fsConst true true [entStyle] with
  | Except.ok s => s
  | Except.error _ => HttpServer.init

/-- C5 counterexample: mounting `st` at prefix `/app` with one regular
file `style.css` registers the file's GET route at `/style.css` — the
mount prefix is ignored for file routes, so neither `/app/style.css` nor
`/appstyle.css` (the two readings of `mount_prefix + relative_path`) is
registered, contradicting the claim for every mount prefix other than
`/`. -/
theorem c5_counterexample :
    svApp.staticSetup fsConst true true [entStyle] = Except.ok svAppStatic
    ∧ svApp._static_directory_mount_point = "/app"
    ∧ getRoute svAppStatic "GET" "/app/style.css" = none
    ∧ getRoute svAppStatic "GET" "/appstyle.css" = none
    ∧ (getRoute svAppStatic "GET" "/style.css").isSome = true := by
  exact ⟨rfl, rfl, rfl, rfl, rfl⟩

/-- C5 witness: the amended theorem applied to the concrete mount of `st`
at `/app` with the single `.css` file. -/
theorem c5_static_routes_witness :
    getRoute svAppStatic "GET" "/app" = some (indexHandler fsConst "st/")
    ∧ getRoute svAppStatic "GET" "/style.css"
        = some (staticFileHandler fsConst "st/style.css" ".css")
    ∧ mapLookup (staticFileHandler fsConst "st/style.css" ".css" reqGETh
        initialResponse)._headers "Content-Type" = some "text/css"
    ∧ (staticFileHandler fsConst "st/style.css" ".css" reqGETh initialResponse)._body
        = "BODY" := by
  have h := c5_static_routes fsConst svApp [entStyle] svAppStatic (by decide) rfl
    (by decide) (by decide)
  refine ⟨h.1, ?_, ?_, ?_⟩
  · exact h.2.1 entStyle (List.mem_cons_self _ _) rfl
  · exact (h.2.2.1 "st/style.css" ".css" reqGETh initialResponse).1
  · exact (h.2.2.1 "st/style.css" ".css" reqGETh initialResponse).2

/-! ## C4: serialization of a request, and scanning lemmas -/

/-- The claim-side serialization of a header block: one `\r\n`-preceded
`key: value` line per header. -/
def headerBlock : List (String × String) → String
  | [] => ""
  | (k, v) :: rest => "\r\n" ++ k ++ ": " ++ v ++ headerBlock rest

/-- The claim-side serialization of a request:
`request_line + headers + \r\n\r\n`. -/
def serializeRequest (m p : String) (hs : List (String × String)) : String :=
  m ++ " " ++ p ++ " HTTP/1.1" ++ headerBlock hs ++ "\r\n\r\n"

/-- Well-formedness of a method / path token: no CR, LF or space. -/
def cleanWord (s : String) : Bool :=
  s.data.all fun c => !(c == '\r' || c == '\n' || c == ' ')

/-- Well-formedness of a header key or value: no CR or LF, no embedded
`": "` separator, and already trimmed. -/
def cleanHdrTok (s : String) : Bool :=
  (s.data.all fun c => !(c == '\r' || c == '\n')) && !(containsSub [':', ' '] s.data)
    && (trim s == s)

/-- Unpacking `cleanWord`. -/
theorem cleanWord_spec {s : String} (h : cleanWord s = true) :
    (∀ c ∈ s.data, c ≠ '\r') ∧ (∀ c ∈ s.data, c ≠ '\n') ∧ (∀ c ∈ s.data, c ≠ ' ') := by
  simp only [cleanWord, List.all_eq_true, Bool.not_eq_true', Bool.or_eq_false_iff,
    beq_eq_false_iff_ne] at h
  exact ⟨fun c hc => ((h c hc).1).1, fun c hc => ((h c hc).1).2, fun c hc => (h c hc).2⟩

/-- Unpacking `cleanHdrTok`. -/
theorem cleanHdrTok_spec {s : String} (h : cleanHdrTok s = true) :
    (∀ c ∈ s.data, c ≠ '\r') ∧ (∀ c ∈ s.data, c ≠ '\n')
    ∧ containsSub [':', ' '] s.data = false ∧ trim s = s := by
  simp only [cleanHdrTok, Bool.and_eq_true, Bool.not_eq_true', List.all_eq_true,
    Bool.or_eq_false_iff, beq_eq_false_iff_ne, beq_iff_eq] at h
  exact ⟨fun c hc => (h.1.1 c hc).1, fun c hc => (h.1.1 c hc).2, h.1.2, h.2⟩

/-- A two-character pattern does not occur in a list missing its first
character. -/
theorem containsSub_pair_eq_false {x y : Char} {s : List Char}
    (h : ∀ c ∈ s, c ≠ x) : containsSub [x, y] s = false := by
  induction s with
  | nil => rfl
  | cons c rest ih =>
    have hc : (x == c) = false :=
      beq_eq_false_iff_ne.2 fun hh => h c (List.mem_cons_self _ _) hh.symm
    simp only [containsSub, List.isPrefixOf, hc, Bool.false_and, Bool.false_or]
    exact ih fun c' hc' => h c' (List.mem_cons_of_mem _ hc')

/-- A single-character pattern does not occur in a list missing it. -/
theorem containsSub_single_eq_false {x : Char} {s : List Char}
    (h : ∀ c ∈ s, c ≠ x) : containsSub [x] s = false := by
  induction s with
  | nil => rfl
  | cons c rest ih =>
    have hc : (x == c) = false :=
      beq_eq_false_iff_ne.2 fun hh => h c (List.mem_cons_self _ _) hh.symm
    simp only [containsSub, List.isPrefixOf, hc, Bool.false_and, Bool.false_or,
      Bool.and_false]
    exact ih fun c' hc' => h c' (List.mem_cons_of_mem _ hc')

/-- `takeUntilSub` passes over a character that cannot start the
terminator. -/
theorem tus_cons_ne {c : Char} (hc : c ≠ '\r') (s : List Char) :
    takeUntilSub ['\r', '\n', '\r', '\n'] (c :: s)
      = c :: takeUntilSub ['\r', '\n', '\r', '\n'] s := by
  have h : ('\r' == c) = false := beq_eq_false_iff_ne.2 fun hh => hc hh.symm
  simp [takeUntilSub, List.isPrefixOf, h]

/-- `takeUntilSub` passes over a CR-free prefix. -/
theorem tus_append_clean {a : List Char} (ha : ∀ c ∈ a, c ≠ '\r') (s : List Char) :
    takeUntilSub ['\r', '\n', '\r', '\n'] (a ++ s)
      = a ++ takeUntilSub ['\r', '\n', '\r', '\n'] s := by
  induction a with
  | nil => rfl
  | cons c a' ih =>
    rw [List.cons_append, tus_cons_ne (ha c (List.mem_cons_self _ _)),
      ih fun c' hc' => ha c' (List.mem_cons_of_mem _ hc')]
    rfl

/-- `takeUntilSub` stops at the terminator. -/
theorem tus_term (s : List Char) :
    takeUntilSub ['\r', '\n', '\r', '\n'] ('\r' :: '\n' :: '\r' :: '\n' :: s) = [] := by
  simp [takeUntilSub, List.isPrefixOf]

/-- `takeUntilSub` passes over one `\r\n` followed by a non-empty CR-free
chunk. -/
theorem tus_crlf_block {a : List Char} (ha : ∀ c ∈ a, c ≠ '\r') (hne : a ≠ [])
    (s : List Char) :
    takeUntilSub ['\r', '\n', '\r', '\n'] ('\r' :: '\n' :: (a ++ s))
      = '\r' :: '\n' :: (a ++ takeUntilSub ['\r', '\n', '\r', '\n'] s) := by
  cases a with
  | nil => exact absurd rfl hne
  | cons c a' =>
    have hc : ('\r' == c) = false :=
      beq_eq_false_iff_ne.2 fun hh => ha c (List.mem_cons_self _ _) hh.symm
    have step1 : takeUntilSub ['\r', '\n', '\r', '\n'] ('\r' :: '\n' :: c :: (a' ++ s))
        = '\r' :: takeUntilSub ['\r', '\n', '\r', '\n'] ('\n' :: c :: (a' ++ s)) := by
      simp [takeUntilSub, List.isPrefixOf, hc]
    have step2 : takeUntilSub ['\r', '\n', '\r', '\n'] ('\n' :: c :: (a' ++ s))
        = '\n' :: takeUntilSub ['\r', '\n', '\r', '\n'] (c :: (a' ++ s)) := by
      simp [takeUntilSub, List.isPrefixOf]
    rw [List.cons_append, step1, step2, show (c :: (a' ++ s)) = (c :: a') ++ s from rfl,
      tus_append_clean ha]

/-- `takeUntilSub` recovers the whole serialized header block, stopping
exactly at the final terminator. -/
theorem tus_headerBlock (hs : List (String × String))
    (hh : ∀ kv ∈ hs, (∀ c ∈ kv.1.data, c ≠ '\r') ∧ (∀ c ∈ kv.2.data, c ≠ '\r')) :
    takeUntilSub ['\r', '\n', '\r', '\n'] ((headerBlock hs).data ++ ['\r', '\n', '\r', '\n'])
      = (headerBlock hs).data := by
  induction hs with
  | nil => exact tus_term []
  | cons kv t ih =>
    obtain ⟨k, v⟩ := kv
    have hk := (hh (k, v) (List.mem_cons_self _ _)).1
    have hv := (hh (k, v) (List.mem_cons_self _ _)).2
    have hline : ∀ c ∈ k.data ++ ':' :: ' ' :: v.data, c ≠ '\r' := by
      intro c hc
      rcases List.mem_append.1 hc with hc | hc
      · exact hk c hc
      · rcases List.mem_cons.1 hc with hc | hc
        · rw [hc]; decide
        · rcases List.mem_cons.1 hc with hc | hc
          · rw [hc]; decide
          · exact hv c hc
    have hlne : k.data ++ ':' :: ' ' :: v.data ≠ [] := by
      cases hkd : k.data <;> simp [hkd]
    have hdata : (headerBlock ((k, v) :: t)).data
        = '\r' :: '\n' :: ((k.data ++ ':' :: ' ' :: v.data) ++ (headerBlock t).data) := by
      show ("\r\n" ++ k ++ ": " ++ v ++ headerBlock t).data = _
      simp [String.data_append, List.append_assoc]
    rw [hdata, List.cons_append, List.cons_append, List.append_assoc,
      tus_crlf_block hline hlne, ih fun kv hkv => hh kv (List.mem_cons_of_mem _ hkv)]

/-- One scanning step of `splitAux` over a non-matching position. -/
theorem sa_step_ne {d : List Char} {c : Char} {rest acc : List Char}
    (h : d.isPrefixOf (c :: rest) = false) :
    splitAux d (c :: rest) acc 0 = splitAux d rest (acc ++ [c]) 0 := by
  simp [splitAux, h]

/-- The skip phase of `splitAux` consumes exactly the delimiter just
matched. -/
theorem sa_skip (d : List Char) : ∀ (x y acc : List Char),
    splitAux d (x ++ y) acc x.length = splitAux d y acc 0
  | [], _, _ => rfl
  | c :: x', y, acc => by
    rw [List.cons_append, List.length_cons,
      show splitAux d (c :: (x' ++ y)) acc (x'.length + 1) = splitAux d (x' ++ y) acc x'.length
        from rfl]
    exact sa_skip d x' y acc

/-- `splitAux` with a two-character delimiter `xy` (`x ≠ y`) splits off a
delimiter-free token at the first occurrence. -/
theorem sa_pair_through {x y : Char} (hxy : x ≠ y) :
    ∀ (a b acc : List Char), containsSub [x, y] a = false →
      splitAux [x, y] (a ++ x :: y :: b) acc 0 = (acc ++ a) :: splitAux [x, y] b [] 0
  | [], b, acc, _ => by
    have hpre : List.isPrefixOf [x, y] (x :: y :: b) = true := by simp [List.isPrefixOf]
    simp [splitAux, hpre]
  | c :: a', b, acc, ha => by
    have ha' : List.isPrefixOf [x, y] (c :: a') = false ∧ containsSub [x, y] a' = false := by
      simpa [containsSub, Bool.or_eq_false_iff] using ha
    have hpre : List.isPrefixOf [x, y] (c :: (a' ++ x :: y :: b)) = false := by
      cases a' with
      | nil =>
        have hyx : (y == x) = false := beq_eq_false_iff_ne.2 fun hh => hxy hh.symm
        simp [List.isPrefixOf, hyx]
      | cons e t =>
        have h0 := ha'.1
        simp only [List.isPrefixOf, List.cons_append, Bool.and_true] at h0 ⊢
        simpa using h0
    rw [List.cons_append, sa_step_ne hpre, sa_pair_through hxy a' b (acc ++ [c]) ha'.2]
    simp

/-- `splitAux` with a two-character delimiter over a delimiter-free list
yields one token. -/
theorem sa_pair_nomatch {x y : Char} : ∀ (s acc : List Char),
    containsSub [x, y] s = false → splitAux [x, y] s acc 0 = [acc ++ s]
  | [], acc, _ => by simp [splitAux]
  | c :: rest, acc, h => by
    have h' : List.isPrefixOf [x, y] (c :: rest) = false ∧ containsSub [x, y] rest = false := by
      simpa [containsSub, Bool.or_eq_false_iff] using h
    rw [sa_step_ne h'.1, sa_pair_nomatch rest (acc ++ [c]) h'.2]
    simp

/-- `splitAux` with a one-character delimiter splits off an occurrence-free
token at the first occurrence. -/
theorem sa_single_through {x : Char} : ∀ (a b acc : List Char),
    containsSub [x] a = false →
      splitAux [x] (a ++ x :: b) acc 0 = (acc ++ a) :: splitAux [x] b [] 0
  | [], b, acc, _ => by
    have hpre : List.isPrefixOf [x] (x :: b) = true := by simp [List.isPrefixOf]
    simp [splitAux, hpre]
  | c :: a', b, acc, ha => by
    have ha' : List.isPrefixOf [x] (c :: a') = false ∧ containsSub [x] a' = false := by
      simpa [containsSub, Bool.or_eq_false_iff] using ha
    have hpre : List.isPrefixOf [x] (c :: (a' ++ x :: b)) = false := by
      have h0 := ha'.1
      simp only [List.isPrefixOf, Bool.and_true] at h0 ⊢
      simpa using h0
    rw [List.cons_append, sa_step_ne hpre, sa_single_through a' b (acc ++ [c]) ha'.2]
    simp

/-- `splitAux` with a one-character delimiter over an occurrence-free list
yields one token. -/
theorem sa_single_nomatch {x : Char} : ∀ (s acc : List Char),
    containsSub [x] s = false → splitAux [x] s acc 0 = [acc ++ s]
  | [], acc, _ => by simp [splitAux]
  | c :: rest, acc, h => by
    have h' : List.isPrefixOf [x] (c :: rest) = false ∧ containsSub [x] rest = false := by
      simpa [containsSub, Bool.or_eq_false_iff] using h
    rw [sa_step_ne h'.1, sa_single_nomatch rest (acc ++ [c]) h'.2]
    simp

/-- `List.asString` and `String.data` are inverse. -/
theorem asString_data (s : String) : s.data.asString = s := rfl

/-- A serialized header line contains no CR when key and value do not. -/
theorem line_no_cr {k v : String} (hk : ∀ c ∈ k.data, c ≠ '\r')
    (hv : ∀ c ∈ v.data, c ≠ '\r') :
    ∀ c ∈ k.data ++ ':' :: ' ' :: v.data, c ≠ '\r' := by
  intro c hc
  rcases List.mem_append.1 hc with hc | hc
  · exact hk c hc
  · rcases List.mem_cons.1 hc with hc | hc
    · rw [hc]; decide
    · rcases List.mem_cons.1 hc with hc | hc
      · rw [hc]; decide
      · exact hv c hc

/-- Splitting a CR-free token followed by a serialized header block on
`\r\n` recovers the token and the raw header lines. -/
theorem sa_crlf_headerBlock :
    ∀ (hs : List (String × String)) (a acc : List Char),
      (∀ c ∈ a, c ≠ '\r') →
      (∀ kv ∈ hs, (∀ c ∈ kv.1.data, c ≠ '\r') ∧ (∀ c ∈ kv.2.data, c ≠ '\r')) →
      splitAux ['\r', '\n'] (a ++ (headerBlock hs).data) acc 0
        = (acc ++ a) :: hs.map (fun kv => kv.1.data ++ ':' :: ' ' :: kv.2.data)
  | [], a, acc, ha, _ => by
    rw [show (headerBlock []).data = [] from rfl, List.append_nil,
      sa_pair_nomatch a acc (containsSub_pair_eq_false ha)]
    rfl
  | (k, v) :: t, a, acc, ha, hh => by
    have hk := (hh (k, v) (List.mem_cons_self _ _)).1
    have hv := (hh (k, v) (List.mem_cons_self _ _)).2
    have hdata : (headerBlock ((k, v) :: t)).data
        = '\r' :: '\n' :: ((k.data ++ ':' :: ' ' :: v.data) ++ (headerBlock t).data) := by
      show ("\r\n" ++ k ++ ": " ++ v ++ headerBlock t).data = _
      simp [String.data_append, List.append_assoc]
    rw [hdata, sa_pair_through (by decide) a _ acc (containsSub_pair_eq_false ha),
      sa_crlf_headerBlock t (k.data ++ ':' :: ' ' :: v.data) [] (line_no_cr hk hv)
        (fun kv hkv => hh kv (List.mem_cons_of_mem _ hkv))]
    simp

/-- Reading back the request line of a serialized request. -/
theorem parseRequestLine_serialized (m p : String)
    (hms : ∀ c ∈ m.data, c ≠ ' ') (hps : ∀ c ∈ p.data, c ≠ ' ') :
    parseRequestLine (m ++ " " ++ p ++ " HTTP/1.1") = some (m, p) := by
  have hshape : (m ++ " " ++ p ++ " HTTP/1.1").data
      = m.data ++ ' ' :: (p.data ++ ' ' :: ("HTTP/1.1" : String).data) := by
    simp [String.data_append]
  have hsplit : split (m ++ " " ++ p ++ " HTTP/1.1") " " = [m, p, "HTTP/1.1"] := by
    show (splitAux (" " : String).data (m ++ " " ++ p ++ " HTTP/1.1").data [] 0).map
        List.asString = _
    rw [show (" " : String).data = [' '] from rfl, hshape,
      sa_single_through m.data _ [] (containsSub_single_eq_false hms),
      sa_single_through p.data _ [] (containsSub_single_eq_false hps),
      sa_single_nomatch _ [] (by decide)]
    simp only [List.map_cons, List.map_nil, List.nil_append, asString_data]
    rfl
  simp only [parseRequestLine, hsplit]

/-- Reading back the header lines of a serialized request: every line
splits into its trimmed key and value, which land lower-cased in the
map. -/
theorem parseHeaderLines_serialized :
    ∀ (hs : List (String × String)) (acc : List (String × String)),
      (∀ kv ∈ hs, cleanHdrTok kv.1 = true ∧ cleanHdrTok kv.2 = true) →
      parseHeaderLines (hs.map fun kv => List.asString (kv.1.data ++ ':' :: ' ' :: kv.2.data))
          acc
        = some (hs.foldl (fun acc kv => mapInsert acc (lowers kv.1) (lowers kv.2)) acc)
  | [], _, _ => rfl
  | (k, v) :: t, acc, hh => by
    obtain ⟨hkc, hvc⟩ := hh (k, v) (List.mem_cons_self _ _)
    obtain ⟨_, _, hkn, hkt⟩ := cleanHdrTok_spec hkc
    obtain ⟨_, _, hvn, hvt⟩ := cleanHdrTok_spec hvc
    have hsplit : split (List.asString (k.data ++ ':' :: ' ' :: v.data)) ": " = [k, v] := by
      show (splitAux (": " : String).data
          (List.asString (k.data ++ ':' :: ' ' :: v.data)).data [] 0).map List.asString = _
      rw [show (": " : String).data = [':', ' '] from rfl,
        show (List.asString (k.data ++ ':' :: ' ' :: v.data)).data
          = k.data ++ ':' :: ' ' :: v.data from rfl,
        sa_pair_through (by decide) k.data v.data [] hkn,
        sa_pair_nomatch v.data [] hvn]
      simp [asString_data]
    rw [List.map_cons]
    simp only [parseHeaderLines, hsplit, hkt, hvt, List.foldl_cons]
    exact parseHeaderLines_serialized t _ fun kv hkv => hh kv (List.mem_cons_of_mem _ hkv)

/-- Assembling the parser from the behaviour of its three stages. -/
theorem parse_eq_of (raw : String) (sl : String) (rest : List String) (mr : String × String)
    (hs' : List (String × String))
    (h1 : split ((takeUntilSub "\r\n\r\n".data raw.data).asString) "\r\n" = sl :: rest)
    (h2 : parseRequestLine sl = some mr)
    (h3 : parseHeaderLines rest [] = some hs') :
    HttpRequest.parse raw
      = some { _headers := hs', _body := "", _method := mr.1, _route := mr.2 } := by
  obtain ⟨m, r⟩ := mr
  simp only [HttpRequest.parse, h1, h2, h3, Option.map_some']

/-! ## C4 -/

/-- C4: parsing the serialized bytes `request_line + headers + \r\n\r\n`
of a well-formed request (method and path free of spaces/CR/LF; header
keys and values free of CR/LF and of the `": "` separator, and already
trimmed) recovers the original method, the original path, and the original
header map up to case: keys and values are recovered lower-cased, with
last write winning on keys equal up to case. -/
theorem c4_roundtrip (m p : String) (hs : List (String × String))
    (hm : cleanWord m = true) (hp : cleanWord p = true)
    (hh : ∀ kv ∈ hs, cleanHdrTok kv.1 = true ∧ cleanHdrTok kv.2 = true) :
    HttpRequest.parse (serializeRequest m p hs)
      = some { _headers :=
                 hs.foldl (fun acc kv => mapInsert acc (lowers kv.1) (lowers kv.2)) []
             , _body := "", _method := m, _route := p } := by
  obtain ⟨hmr, _, hms⟩ := cleanWord_spec hm
  obtain ⟨hpr, _, hps⟩ := cleanWord_spec hp
  have hhr : ∀ kv ∈ hs, (∀ c ∈ kv.1.data, c ≠ '\r') ∧ (∀ c ∈ kv.2.data, c ≠ '\r') :=
    fun kv hkv => ⟨(cleanHdrTok_spec (hh kv hkv).1).1, (cleanHdrTok_spec (hh kv hkv).2).1⟩
  have hlit1 : ∀ c ∈ (" " : String).data, c ≠ '\r' := by decide
  have hlit2 : ∀ c ∈ (" HTTP/1.1" : String).data, c ≠ '\r' := by decide
  have hL0r : ∀ c ∈ (m ++ " " ++ p ++ " HTTP/1.1").data, c ≠ '\r' := by
    simp only [String.data_append]
    intro c hc
    rcases List.mem_append.1 hc with hc | hc
    · rcases List.mem_append.1 hc with hc | hc
      · rcases List.mem_append.1 hc with hc | hc
        · exact hmr c hc
        · exact hlit1 c hc
      · exact hpr c hc
    · exact hlit2 c hc
  have htus : takeUntilSub "\r\n\r\n".data (serializeRequest m p hs).data
      = (m ++ " " ++ p ++ " HTTP/1.1").data ++ (headerBlock hs).data := by
    have h1 : (serializeRequest m p hs).data
        = (m ++ " " ++ p ++ " HTTP/1.1").data
          ++ ((headerBlock hs).data ++ ("\r\n\r\n" : String).data) := by
      show (m ++ " " ++ p ++ " HTTP/1.1" ++ headerBlock hs ++ "\r\n\r\n").data = _
      simp [String.data_append, List.append_assoc]
    rw [h1, show ("\r\n\r\n" : String).data = ['\r', '\n', '\r', '\n'] from rfl,
      tus_append_clean hL0r, tus_headerBlock hs hhr]
  have hlines : split ((takeUntilSub "\r\n\r\n".data
        (serializeRequest m p hs).data).asString) "\r\n"
      = (m ++ " " ++ p ++ " HTTP/1.1")
        :: hs.map (fun kv => List.asString (kv.1.data ++ ':' :: ' ' :: kv.2.data)) := by
    rw [htus]
    show (splitAux ("\r\n" : String).data
        (List.asString ((m ++ " " ++ p ++ " HTTP/1.1").data ++ (headerBlock hs).data)).data
        [] 0).map List.asString = _
    rw [show ("\r\n" : String).data = ['\r', '\n'] from rfl,
      show (List.asString ((m ++ " " ++ p ++ " HTTP/1.1").data ++ (headerBlock hs).data)).data
        = (m ++ " " ++ p ++ " HTTP/1.1").data ++ (headerBlock hs).data from rfl,
      sa_crlf_headerBlock hs _ [] hL0r hhr]
    simp only [List.map_cons, List.map_map, List.nil_append, Function.comp, asString_data]
    rfl
  exact parse_eq_of _ _ _ (m, p) _ hlines
    (parseRequestLine_serialized m p hms hps)
    (parseHeaderLines_serialized hs [] hh)

/-- C4 witness: the round-trip theorem applied to
`GET /a` with headers `Host: X` and `Content-Length: 5`. -/
theorem c4_roundtrip_witness :
    HttpRequest.parse (serializeRequest "GET" "/a" [("Host", "X"), ("Content-Length", "5")])
      = some { _headers := [("content-length", "5"), ("host", "x")], _body := ""
             , _method := "GET", _route := "/a" } := by
  exact c4_roundtrip "GET" "/a" [("Host", "X"), ("Content-Length", "5")]
    (by decide) (by decide) (by decide)

end HttpSrv
